import Mathlib

/-
Verification of the mode-eigenvalue solvers of the ofiber library
(`ofiber/cylinder_step.py` and `ofiber/planar_step.py`).

Floating-point quantities are modelled as exact rationals.  The external
numeric dependencies are modelled as parameters:

* `brent` models `scipy.optimize.brentq` applied to the fixed eigenvalue
  function of the module (`_cyl_mode_eqn` for the cylindrical solver,
  `_TE_mode` / `_TM_mode` for the planar solvers).  The value `none` models
  the `ValueError` brentq raises when the function has the same sign at both
  bracket endpoints; `some b` models a successful return of the root `b`.
* `z` models `scipy.special.jn_zeros`: `z ell k` is the k-th positive zero
  of the Bessel function `J_ell`, so that `jn_zeros(ell, em)[em - 1] = z ell em`.

`np.pi` is the IEEE double constant `3.141592653589793`, kept exactly.
-/

namespace Ofiber

/-- Value of the double-precision constant `np.pi` used by `planar_step.py`. -/
def npPi : ℚ := 3141592653589793 / 1000000000000000

/-- Value of the guard constant `abit = 1e-5` used in `cylinder_step.py` and
`planar_step.py`. -/
def abit5 : ℚ := 1 / 100000

/-- Python truncation `int(x)` (round toward zero). -/
def pyInt (x : ℚ) : ℤ :=
  if x < 0 then -Int.floor (-x) else Int.floor x

/-- Normalization of the azimuthal order performed at the top of
`_LP_mode_value`: `if ell < 0: ell *= -1`. -/
def pyAbsEll (ell : ℤ) : ℤ :=
  if ell < 0 then -ell else ell

/-- Lower bracket endpoint of `_LP_mode_value`:
`lo = max(0, 1 - (jnz[em - 1] / V)**2) + abit`. -/
def lpLo (z : ℤ → ℤ → ℚ) (ell em : ℤ) (V : ℚ) : ℚ :=
  max 0 (1 - (z ell em / V) ^ 2) + abit5

/-- Upper bracket endpoint of `_LP_mode_value`:
`hi = 1 - abit` when `em == 1`, else `hi = 1 - (jnz[em - 2] / V)**2 - abit`. -/
def lpHi (z : ℤ → ℤ → ℚ) (ell em : ℤ) (V : ℚ) : ℚ :=
  if em = 1 then 1 - abit5 else 1 - (z ell (em - 1) / V) ^ 2 - abit5

/-- Embedding of the private scalar solver `_LP_mode_value(V, ell, em)` of
`ofiber/cylinder_step.py`.  `none` models the Python return value `None`
(the "no mode" sentinel). -/
def _LP_mode_value (brent : ℚ → ℤ → ℚ → ℚ → Option ℚ) (z : ℤ → ℤ → ℚ)
    (V : ℚ) (ell em : ℤ) : Option ℚ :=
  if em ≤ 0 then none
  else if V ≤ 0 then none
  else if lpHi z (pyAbsEll ell) em V < lpLo z (pyAbsEll ell) em V then none
  else
    match brent V (pyAbsEll ell) (lpLo z (pyAbsEll ell) em V) (lpHi z (pyAbsEll ell) em V) with
    | none => none
    | some b => some b

/-- Embedding of the public wrapper `LP_mode_value(V, ell, em)` of
`ofiber/cylinder_step.py` in the all-scalar case.  `Except.error` models an
uncaught Python exception; the wrapper raises `ValueError` when `em < 1`
before dispatching to `_LP_mode_value`. -/
def LP_mode_value (brent : ℚ → ℤ → ℚ → ℚ → Option ℚ) (z : ℤ → ℤ → ℚ)
    (V : ℚ) (ell em : ℤ) : Except String (Option ℚ) :=
  if em < 1 then Except.error "The mode number em must be one or greater."
  else Except.ok (_LP_mode_value brent z V ell em)

/-- Embedding of the element loop of `LP_mode_value` when one argument is an
array: each scalar result is stored into a float array (`b[i] = ...`), and
storing the sentinel `None` into a float numpy array raises `TypeError`. -/
def fillFloats {α : Type} (f : α → Except String (Option ℚ)) :
    List α → Except String (List ℚ)
  | [] => Except.ok []
  | a :: rest =>
    match f a with
    | Except.error e => Except.error e
    | Except.ok none => Except.error "TypeError: float conversion of None"
    | Except.ok (some b) =>
      match fillFloats f rest with
      | Except.error e => Except.error e
      | Except.ok l => Except.ok (b :: l)

/-- Embedding of the public `LP_mode_value` when `V` is an array (and `ell`,
`em` are scalars): the `em < 1` check runs first, then the loop
`b[i] = LP_mode_value(VV, ell, em)` fills a float array. -/
def LP_mode_value_arrayV (brent : ℚ → ℤ → ℚ → ℚ → Option ℚ) (z : ℤ → ℤ → ℚ)
    (Vs : List ℚ) (ell em : ℤ) : Except String (List ℚ) :=
  if em < 1 then Except.error "The mode number em must be one or greater."
  else fillFloats (fun V => LP_mode_value brent z V ell em) Vs

/-- Embedding of the public `LP_mode_value` when `ell` is an array (and `V`,
`em` are scalars). -/
def LP_mode_value_arrayEll (brent : ℚ → ℤ → ℚ → ℚ → Option ℚ) (z : ℤ → ℤ → ℚ)
    (V : ℚ) (ells : List ℤ) (em : ℤ) : Except String (List ℚ) :=
  if em < 1 then Except.error "The mode number em must be one or greater."
  else fillFloats (fun l => LP_mode_value brent z V l em) ells

/-- Embedding of the loop `for em in range(1, 10)` of `LP_mode_values`:
`LP_scan ... em n` runs at most `n` further iterations starting at radial
order `em`, stopping at the first `None` result. -/
def LP_scan (brent : ℚ → ℤ → ℚ → ℚ → Option ℚ) (z : ℤ → ℤ → ℚ)
    (V : ℚ) (ell : ℤ) : ℤ → ℕ → Except String (List ℚ)
  | _, 0 => Except.ok []
  | em, Nat.succ n =>
    match LP_mode_value brent z V ell em with
    | Except.error e => Except.error e
    | Except.ok none => Except.ok []
    | Except.ok (some b) =>
      match LP_scan brent z V ell (em + 1) n with
      | Except.error e => Except.error e
      | Except.ok l => Except.ok (b :: l)

/-- Embedding of `LP_mode_values(V, ell)` of `ofiber/cylinder_step.py`:
scan radial orders `em = 1, ..., 9` and collect the values found before the
first "no mode" result. -/
def LP_mode_values (brent : ℚ → ℤ → ℚ → ℚ → Option ℚ) (z : ℤ → ℤ → ℚ)
    (V : ℚ) (ell : ℤ) : Except String (List ℚ) :=
  LP_scan brent z V ell 1 9

/-- Lower bracket endpoint of `TE_crossing` and `TM_crossing`:
`lo = abit + mode * np.pi / 2`. -/
def teLo (mode : ℕ) : ℚ :=
  abit5 + mode * npPi / 2

/-- Upper bracket endpoint of `TE_crossing` and `TM_crossing`:
`hi = min(np.pi / 2 - abit + mode * np.pi / 2, V / 2)`. -/
def teHi (V : ℚ) (mode : ℕ) : ℚ :=
  min (npPi / 2 - abit5 + mode * npPi / 2) (V / 2)

/-- Embedding of `TE_crossing(V, mode)` of `ofiber/planar_step.py`.  The
sentinel value `0` models "no such mode"; a same-sign `ValueError` from
brentq is caught and also mapped to `0`. -/
def TE_crossing (brent : ℚ → ℕ → ℚ → ℚ → Option ℚ) (V : ℚ) (mode : ℕ) : ℚ :=
  if V / 2 < teLo mode then 0
  else
    match brent V mode (teLo mode) (teHi V mode) with
    | none => 0
    | some b => b

/-- Embedding of `TE_crossings(V)` of `ofiber/planar_step.py`:
`ncross = int(V / np.pi) + 1` eigenvalues, one per mode index. -/
def TE_crossings (brent : ℚ → ℕ → ℚ → ℚ → Option ℚ) (V : ℚ) : List ℚ :=
  (List.range (pyInt (V / npPi) + 1).toNat).map (fun mode => TE_crossing brent V mode)

/-- Embedding of `TM_crossing(V, n1, n2, mode)` of `ofiber/planar_step.py`.
The bracket is identical to the TE case; only the eigenvalue function passed
to brentq (modelled by `brent`) differs. -/
def TM_crossing (brent : ℚ → ℚ → ℚ → ℕ → ℚ → ℚ → Option ℚ)
    (V n1 n2 : ℚ) (mode : ℕ) : ℚ :=
  if V / 2 < teLo mode then 0
  else
    match brent V n1 n2 mode (teLo mode) (teHi V mode) with
    | none => 0
    | some b => b

/-- Concrete model of `jn_zeros` used for witnesses: double-precision values
of the first zeros of `J_0` and `J_1` as returned by scipy. -/
def zConc : ℤ → ℤ → ℚ := fun ell k =>
  if ell = 0 ∧ k = 1 then 2404825557695773 / 1000000000000000
  else if ell = 0 ∧ k = 2 then 5520078110286311 / 1000000000000000
  else if ell = 1 ∧ k = 1 then 3831705970207512 / 1000000000000000
  else 0

/-- Concrete root-finder model that fails (raises on a same-sign bracket)
on every call. -/
def noneBrentC : ℚ → ℤ → ℚ → ℚ → Option ℚ := fun _ _ _ _ => none

/-- Concrete root-finder model that succeeds on every call, returning the
bracket midpoint. -/
def midBrent : ℚ → ℤ → ℚ → ℚ → Option ℚ := fun _ _ lo hi => some ((lo + hi) / 2)

/-- Concrete root-finder model that returns the bracket midpoint on a valid
bracket and fails otherwise. -/
def condMidBrent : ℚ → ℤ → ℚ → ℚ → Option ℚ :=
  fun _ _ lo hi => if lo ≤ hi then some ((lo + hi) / 2) else none

/-- Concrete planar TE root-finder model that fails on every call. -/
def noneBrentTE : ℚ → ℕ → ℚ → ℚ → Option ℚ := fun _ _ _ _ => none

/-- Concrete planar TM root-finder model that fails on every call. -/
def noneBrentTM : ℚ → ℚ → ℚ → ℕ → ℚ → ℚ → Option ℚ := fun _ _ _ _ _ _ => none

/-- Normalizing the azimuthal order is insensitive to its sign. -/
theorem pyAbsEll_neg (ell : ℤ) : pyAbsEll (-ell) = pyAbsEll ell := by
  unfold pyAbsEll
  split <;> split <;> omega

/-- C2: as stated, the claim fails: the public `LP_mode_value` raises
`ValueError` for a non-positive radial mode index `em ≤ 0` instead of
returning the "no mode" sentinel.  Concretely `LP_mode_value(1, 0, 0)`
raises. -/
theorem LP_mode_value_em_zero_raises :
    LP_mode_value midBrent zConc 1 0 0 =
      Except.error "The mode number em must be one or greater." := by
  norm_num [LP_mode_value]

/-- C2 (amended): the public `LP_mode_value` returns the "no mode" sentinel
for `V ≤ 0` (with `em ≥ 1`), but raises `ValueError` for `em ≤ 0`; only the
private `_LP_mode_value` returns the sentinel for `em ≤ 0`. -/
theorem LP_mode_value_invalid_input (brent : ℚ → ℤ → ℚ → ℚ → Option ℚ)
    (z : ℤ → ℤ → ℚ) (V : ℚ) (ell em : ℤ) :
    (1 ≤ em → V ≤ 0 → LP_mode_value brent z V ell em = Except.ok none) ∧
    (em ≤ 0 → LP_mode_value brent z V ell em =
        Except.error "The mode number em must be one or greater.") ∧
    (em ≤ 0 → _LP_mode_value brent z V ell em = none) := by
  refine ⟨fun h1 h2 => ?_, fun h => ?_, fun h => ?_⟩
  · unfold LP_mode_value _LP_mode_value
    rw [if_neg (by omega : ¬ em < 1), if_neg (by omega : ¬ em ≤ 0), if_pos h2]
  · unfold LP_mode_value
    rw [if_pos (by omega : em < 1)]
  · unfold _LP_mode_value
    rw [if_pos h]

/-- C2 witness: concrete instances of the amended claim. -/
theorem LP_mode_value_invalid_input_witness :
    LP_mode_value midBrent zConc (-1) 0 1 = Except.ok none ∧
    LP_mode_value midBrent zConc 1 0 (-2) =
      Except.error "The mode number em must be one or greater." ∧
    _LP_mode_value midBrent zConc 1 0 (-2) = none := by
  refine ⟨?_, ?_, ?_⟩
  · exact (LP_mode_value_invalid_input midBrent zConc (-1) 0 1).1
      (by norm_num) (by norm_num)
  · exact (LP_mode_value_invalid_input midBrent zConc 1 0 (-2)).2.1 (by norm_num)
  · exact (LP_mode_value_invalid_input midBrent zConc 1 0 (-2)).2.2 (by norm_num)

/-- C5: for `V > 0`, `ell ≥ 0`, `em ≥ 1`, the cylindrical solver brackets the
root with `lo = max(0, 1 - (z_em / V)^2) + abit` and `hi = 1 - abit` when
`em = 1` (else `hi = 1 - (z_(em-1) / V)^2 - abit`), returns the sentinel
whenever `hi < lo`, and otherwise returns the bracketed root-finder result
on `[lo, hi]` (with a same-sign failure mapped to the sentinel). -/
theorem LP_mode_value_bracket (brent : ℚ → ℤ → ℚ → ℚ → Option ℚ)
    (z : ℤ → ℤ → ℚ) (V : ℚ) (ell em : ℤ)
    (hV : 0 < V) (hell : 0 ≤ ell) (hem : 1 ≤ em) :
    _LP_mode_value brent z V ell em =
      if (if em = 1 then 1 - abit5 else 1 - (z ell (em - 1) / V) ^ 2 - abit5) <
          max 0 (1 - (z ell em / V) ^ 2) + abit5 then none
      else
        match brent V ell (max 0 (1 - (z ell em / V) ^ 2) + abit5)
            (if em = 1 then 1 - abit5 else 1 - (z ell (em - 1) / V) ^ 2 - abit5) with
        | none => none
        | some b => some b := by
  have habs : pyAbsEll ell = ell := by
    unfold pyAbsEll
    split <;> omega
  unfold _LP_mode_value lpLo lpHi
  rw [habs, if_neg (by omega : ¬ em ≤ 0), if_neg (not_le.mpr hV)]

/-- C5 witness: the bracket characterization at `V = 1`, `ell = 0`,
`em = 1`. -/
theorem LP_mode_value_bracket_witness :
    _LP_mode_value condMidBrent zConc 1 0 1 =
      if (if (1:ℤ) = 1 then 1 - abit5 else 1 - (zConc 0 (1 - 1) / 1) ^ 2 - abit5) <
          max 0 (1 - (zConc 0 1 / 1) ^ 2) + abit5 then none
      else
        match condMidBrent 1 0 (max 0 (1 - (zConc 0 1 / 1) ^ 2) + abit5)
            (if (1:ℤ) = 1 then 1 - abit5 else 1 - (zConc 0 (1 - 1) / 1) ^ 2 - abit5) with
        | none => none
        | some b => some b :=
  LP_mode_value_bracket condMidBrent zConc 1 0 1 (by norm_num) (by norm_num) (by norm_num)

/-- C6: the planar solvers `TE_crossing` and `TM_crossing` return the
sentinel `0` whenever the lower bound `abit + mode * pi / 2` exceeds `V / 2`,
and otherwise search the bracket from `abit + mode * pi / 2` to
`min(pi / 2 - abit + mode * pi / 2, V / 2)`. -/
theorem planar_crossing_bracket (tebrent : ℚ → ℕ → ℚ → ℚ → Option ℚ)
    (tmbrent : ℚ → ℚ → ℚ → ℕ → ℚ → ℚ → Option ℚ)
    (V n1 n2 : ℚ) (mode : ℕ) :
    (V / 2 < abit5 + mode * npPi / 2 →
        TE_crossing tebrent V mode = 0 ∧ TM_crossing tmbrent V n1 n2 mode = 0) ∧
    (abit5 + mode * npPi / 2 ≤ V / 2 →
        TE_crossing tebrent V mode =
          (match tebrent V mode (abit5 + mode * npPi / 2)
              (min (npPi / 2 - abit5 + mode * npPi / 2) (V / 2)) with
            | none => 0
            | some b => b) ∧
        TM_crossing tmbrent V n1 n2 mode =
          (match tmbrent V n1 n2 mode (abit5 + mode * npPi / 2)
              (min (npPi / 2 - abit5 + mode * npPi / 2) (V / 2)) with
            | none => 0
            | some b => b)) := by
  constructor
  · intro h
    constructor
    · unfold TE_crossing
      rw [if_pos (show V / 2 < teLo mode from h)]
    · unfold TM_crossing
      rw [if_pos (show V / 2 < teLo mode from h)]
  · intro h
    constructor
    · unfold TE_crossing
      rw [if_neg (not_lt.mpr (show teLo mode ≤ V / 2 from h))]
      rfl
    · unfold TM_crossing
      rw [if_neg (not_lt.mpr (show teLo mode ≤ V / 2 from h))]
      rfl

/-- C6 witness: concrete instances of both branches (`V = 1/100000` has no
mode 1; `V = 1` searches the mode-0 bracket). -/
theorem planar_crossing_bracket_witness :
    (TE_crossing noneBrentTE (1/100000) 1 = 0 ∧
      TM_crossing noneBrentTM (1/100000) 1 1 1 = 0) ∧
    (TE_crossing noneBrentTE 1 0 =
        (match noneBrentTE 1 0 (abit5 + 0 * npPi / 2)
            (min (npPi / 2 - abit5 + 0 * npPi / 2) (1 / 2)) with
          | none => 0
          | some b => b) ∧
      TM_crossing noneBrentTM 1 1 1 0 =
        (match noneBrentTM 1 1 1 0 (abit5 + 0 * npPi / 2)
            (min (npPi / 2 - abit5 + 0 * npPi / 2) (1 / 2)) with
          | none => 0
          | some b => b)) := by
  constructor
  · exact (planar_crossing_bracket noneBrentTE noneBrentTM (1/100000) 1 1 1).1
      (by norm_num [abit5, npPi])
  · exact (planar_crossing_bracket noneBrentTE noneBrentTM 1 1 1 0).2
      (by norm_num [abit5, npPi])

/-- C4: when the bracketed root-finder is reached and fails with the
same-sign condition (modelled by `none`), the cylindrical `LP_mode_value`
returns the sentinel `None` without raising, and the planar `TE_crossing`
and `TM_crossing` return the sentinel `0`. -/
theorem same_sign_failure_sentinel (brent : ℚ → ℤ → ℚ → ℚ → Option ℚ)
    (z : ℤ → ℤ → ℚ) (V : ℚ) (ell em : ℤ)
    (tebrent : ℚ → ℕ → ℚ → ℚ → Option ℚ) (Vte : ℚ) (mte : ℕ)
    (tmbrent : ℚ → ℚ → ℚ → ℕ → ℚ → ℚ → Option ℚ) (Vtm n1 n2 : ℚ) (mtm : ℕ)
    (hem : 1 ≤ em) (hV : 0 < V)
    (hbr : ¬ lpHi z (pyAbsEll ell) em V < lpLo z (pyAbsEll ell) em V)
    (hfail : brent V (pyAbsEll ell) (lpLo z (pyAbsEll ell) em V)
        (lpHi z (pyAbsEll ell) em V) = none)
    (hte : ¬ Vte / 2 < teLo mte)
    (htefail : tebrent Vte mte (teLo mte) (teHi Vte mte) = none)
    (htm : ¬ Vtm / 2 < teLo mtm)
    (htmfail : tmbrent Vtm n1 n2 mtm (teLo mtm) (teHi Vtm mtm) = none) :
    LP_mode_value brent z V ell em = Except.ok none ∧
    TE_crossing tebrent Vte mte = 0 ∧
    TM_crossing tmbrent Vtm n1 n2 mtm = 0 := by
  refine ⟨?_, ?_, ?_⟩
  · unfold LP_mode_value _LP_mode_value
    rw [if_neg (by omega : ¬ em < 1), if_neg (by omega : ¬ em ≤ 0),
      if_neg (not_le.mpr hV), if_neg hbr, hfail]
  · unfold TE_crossing
    rw [if_neg hte, htefail]
  · unfold TM_crossing
    rw [if_neg htm, htmfail]

/-- C4 witness: concrete same-sign failures, mapped to the sentinels. -/
theorem same_sign_failure_sentinel_witness :
    LP_mode_value noneBrentC zConc 1 0 1 = Except.ok none ∧
    TE_crossing noneBrentTE 1 0 = 0 ∧
    TM_crossing noneBrentTM 1 1 1 0 = 0 :=
  same_sign_failure_sentinel noneBrentC zConc 1 0 1 noneBrentTE 1 0
    noneBrentTM 1 1 1 0 (by norm_num) (by norm_num)
    (by norm_num [lpLo, lpHi, pyAbsEll, zConc, abit5, max_def]) rfl
    (by norm_num [teLo, abit5, npPi]) rfl
    (by norm_num [teLo, abit5, npPi]) rfl

/-- C8: a negative azimuthal order gives the same result as its absolute
value, for the public `LP_mode_value`. -/
theorem LP_mode_value_ell_symmetry (brent : ℚ → ℤ → ℚ → ℚ → Option ℚ)
    (z : ℤ → ℤ → ℚ) (V : ℚ) (ell em : ℤ) :
    LP_mode_value brent z V (-ell) em = LP_mode_value brent z V ell em := by
  unfold LP_mode_value _LP_mode_value
  rw [pyAbsEll_neg]

/-- C1: as stated, the claim fails: at `V = 4 > 0` the code allocates
`int(V / pi) + 1 = 2` entries, not `floor(V / (pi / 2)) + 1 = 3`. -/
theorem TE_crossings_count_cex :
    (0:ℚ) < 4 ∧
      (TE_crossings noneBrentTE 4).length ≠
        (Int.floor ((4:ℝ) / (Real.pi / 2)) + 1).toNat := by
  refine ⟨by norm_num, ?_⟩
  have hlen : (TE_crossings noneBrentTE 4).length = 2 := by
    norm_num [TE_crossings, pyInt, npPi]
    decide
  have hfl : Int.floor ((4:ℝ) / (Real.pi / 2)) = 2 := by
    have hpi3 : (3:ℝ) < Real.pi := Real.pi_gt_three
    have hpi4 : Real.pi < 3.15 := Real.pi_lt_d2
    have hpos : (0:ℝ) < Real.pi / 2 := by linarith
    rw [Int.floor_eq_iff]
    constructor
    · rw [le_div_iff₀ hpos]
      push_cast
      linarith
    · rw [div_lt_iff₀ hpos]
      push_cast
      linarith
  rw [hlen, hfl]
  decide

/-- C1 (amended): for every `V > 0`, `TE_crossings(V)` returns exactly
`floor(V / pi) + 1` entries, one per mode index (with `pi` the double
constant `np.pi`). -/
theorem TE_crossings_length (brent : ℚ → ℕ → ℚ → ℚ → Option ℚ)
    (V : ℚ) (hV : 0 < V) :
    (TE_crossings brent V).length = (Int.floor (V / npPi)).toNat + 1 := by
  have h0 : 0 ≤ V / npPi := div_nonneg hV.le (by norm_num [npPi])
  have h2 : 0 ≤ Int.floor (V / npPi) := Int.floor_nonneg.mpr h0
  simp only [TE_crossings, List.length_map, List.length_range, pyInt,
    if_neg (not_lt.mpr h0)]
  omega

/-- C1 witness: the amended count at `V = 3`. -/
theorem TE_crossings_length_witness :
    (0:ℚ) < 3 ∧
      (TE_crossings noneBrentTE 3).length = (Int.floor ((3:ℚ) / npPi)).toNat + 1 :=
  ⟨by norm_num, TE_crossings_length noneBrentTE 3 (by norm_num)⟩

/-- C3: as stated, the claim fails: at `V = 600 > 0` the guard `abit` makes
`hi < lo`, so `LP_mode_value(600, 0, 1)` returns the sentinel even though the
root-finder model always succeeds. -/
theorem LP01_cutoff_cex :
    (0:ℚ) < 600 ∧ LP_mode_value midBrent zConc 600 0 1 = Except.ok none := by
  refine ⟨by norm_num, ?_⟩
  norm_num [LP_mode_value, _LP_mode_value, lpLo, lpHi, pyAbsEll, zConc,
    abit5, max_def]

/-- C3 (amended): assuming the root-finder returns a value on every bracket
with `lo ≤ hi`, `LP_mode_value(V, 0, 1)` returns a valid `b` for every
`V > 0` with `2 * abit * V^2 ≤ z_1^2` (`z_1` the first zero of `J_0`, so
`V` up to about 537.7); beyond that threshold the `abit` guards force
`hi < lo` and the sentinel is returned. -/
theorem LP01_no_cutoff_below_threshold (brent : ℚ → ℤ → ℚ → ℚ → Option ℚ)
    (z : ℤ → ℤ → ℚ) (V : ℚ)
    (hb : ∀ V' l lo hi, lo ≤ hi → ∃ x, brent V' l lo hi = some x)
    (hV : 0 < V) :
    (2 * abit5 * V ^ 2 ≤ z 0 1 ^ 2 →
        ∃ b, LP_mode_value brent z V 0 1 = Except.ok (some b)) ∧
    (z 0 1 ^ 2 < 2 * abit5 * V ^ 2 →
        LP_mode_value brent z V 0 1 = Except.ok none) := by
  have hV2 : (0:ℚ) < V ^ 2 := by positivity
  have hsq : (z 0 1 / V) ^ 2 = z 0 1 ^ 2 / V ^ 2 := div_pow _ _ _
  constructor
  · intro hthr
    have hle : lpLo z 0 1 V ≤ lpHi z 0 1 V := by
      unfold lpLo lpHi
      rw [if_pos rfl, hsq]
      rcases le_total (1 - z 0 1 ^ 2 / V ^ 2) 0 with h | h
      · rw [max_eq_left h]
        norm_num [abit5]
      · rw [max_eq_right h]
        have h2 : 2 * abit5 ≤ z 0 1 ^ 2 / V ^ 2 := (le_div_iff₀ hV2).mpr (by linarith)
        linarith
    obtain ⟨x, hx⟩ := hb V (pyAbsEll 0) (lpLo z (pyAbsEll 0) 1 V) (lpHi z (pyAbsEll 0) 1 V)
      (by simpa [pyAbsEll] using hle)
    refine ⟨x, ?_⟩
    unfold LP_mode_value _LP_mode_value
    rw [if_neg (by omega : ¬ (1:ℤ) < 1), if_neg (by omega : ¬ (1:ℤ) ≤ 0),
      if_neg (not_le.mpr hV),
      if_neg (not_lt.mpr (by simpa [pyAbsEll] using hle)), hx]
  · intro hthr
    have hlt : lpHi z (pyAbsEll 0) 1 V < lpLo z (pyAbsEll 0) 1 V := by
      have habs : pyAbsEll 0 = 0 := rfl
      rw [habs]
      unfold lpLo lpHi
      rw [if_pos rfl, hsq]
      have h2 : z 0 1 ^ 2 / V ^ 2 < 2 * abit5 := (div_lt_iff₀ hV2).mpr (by linarith)
      have hmax : 1 - z 0 1 ^ 2 / V ^ 2 ≤ max 0 (1 - z 0 1 ^ 2 / V ^ 2) := le_max_right _ _
      have : (0:ℚ) < abit5 := by norm_num [abit5]
      linarith
    unfold LP_mode_value _LP_mode_value
    rw [if_neg (by omega : ¬ (1:ℤ) < 1), if_neg (by omega : ¬ (1:ℤ) ≤ 0),
      if_neg (not_le.mpr hV), if_pos hlt]

/-- C3 witness: both branches of the amended claim at `V = 1` and
`V = 600`. -/
theorem LP01_no_cutoff_below_threshold_witness :
    (∃ b, LP_mode_value midBrent zConc 1 0 1 = Except.ok (some b)) ∧
    LP_mode_value midBrent zConc 600 0 1 = Except.ok none := by
  have hb : ∀ V' l lo hi, lo ≤ hi → ∃ x, midBrent V' l lo hi = some x :=
    fun V' l lo hi _ => ⟨(lo + hi) / 2, rfl⟩
  constructor
  · exact (LP01_no_cutoff_below_threshold midBrent zConc 1 hb (by norm_num)).1
      (by norm_num [abit5, zConc])
  · exact (LP01_no_cutoff_below_threshold midBrent zConc 600 hb (by norm_num)).2
      (by norm_num [abit5, zConc])

/-- C7: whenever the public `LP_mode_value` returns a value (not the
sentinel), that value lies strictly between 0 and 1, provided the bracketed
root-finder only returns points inside its bracket. -/
theorem LP_mode_value_range (brent : ℚ → ℤ → ℚ → ℚ → Option ℚ)
    (z : ℤ → ℤ → ℚ) (V : ℚ) (ell em : ℤ) (b : ℚ)
    (hbr : ∀ V' l lo hi x, brent V' l lo hi = some x → lo ≤ x ∧ x ≤ hi)
    (hres : LP_mode_value brent z V ell em = Except.ok (some b)) :
    0 < b ∧ b < 1 := by
  unfold LP_mode_value at hres
  split at hres
  · exact absurd hres (by simp)
  · have h2 : _LP_mode_value brent z V ell em = some b := by
      simpa using hres
    unfold _LP_mode_value at h2
    split at h2
    · exact absurd h2 (by simp)
    · split at h2
      · exact absurd h2 (by simp)
      · split at h2
        · exact absurd h2 (by simp)
        · cases hbv : brent V (pyAbsEll ell) (lpLo z (pyAbsEll ell) em V)
              (lpHi z (pyAbsEll ell) em V) with
          | none =>
            rw [hbv] at h2
            exact absurd h2 (by simp)
          | some x =>
            rw [hbv] at h2
            simp only [Option.some.injEq] at h2
            obtain ⟨hlo, hhi⟩ := hbr _ _ _ _ _ hbv
            have hlo0 : abit5 ≤ lpLo z (pyAbsEll ell) em V := by
              unfold lpLo
              have := le_max_left (0:ℚ) (1 - (z (pyAbsEll ell) em / V) ^ 2)
              linarith
            have hhi1 : lpHi z (pyAbsEll ell) em V ≤ 1 - abit5 := by
              unfold lpHi
              split
              · exact le_refl _
              · have := sq_nonneg (z (pyAbsEll ell) (em - 1) / V)
                linarith
            have habit : (0:ℚ) < abit5 := by norm_num [abit5]
            constructor
            · calc (0:ℚ) < abit5 := habit
                _ ≤ lpLo z (pyAbsEll ell) em V := hlo0
                _ ≤ x := hlo
                _ = b := h2
            · calc b = x := h2.symm
                _ ≤ lpHi z (pyAbsEll ell) em V := hhi
                _ ≤ 1 - abit5 := hhi1
                _ < 1 := by linarith

/-- C7 witness: a concrete returned value and its strict bounds. -/
theorem LP_mode_value_range_witness :
    LP_mode_value condMidBrent zConc 1 0 1 = Except.ok (some (1/2)) ∧
      ((0:ℚ) < 1/2 ∧ (1/2:ℚ) < 1) := by
  have hbr : ∀ V' l lo hi x, condMidBrent V' l lo hi = some x → lo ≤ x ∧ x ≤ hi := by
    intro V' l lo hi x hx
    unfold condMidBrent at hx
    split at hx
    · simp only [Option.some.injEq] at hx
      constructor <;> [skip; skip] <;> first
      | (subst hx; linarith)
    · exact absurd hx (by simp)
  have hres : LP_mode_value condMidBrent zConc 1 0 1 = Except.ok (some (1/2)) := by
    norm_num [LP_mode_value, _LP_mode_value, lpLo, lpHi, pyAbsEll, zConc,
      abit5, condMidBrent, max_def]
  exact ⟨hres, LP_mode_value_range condMidBrent zConc 1 0 1 (1/2) hbr hres⟩

/-- Characterization of the scan loop `LP_scan`: starting from a radial
order `em0 ≥ 1` it never raises, collects successive mode values in order,
and stops at the first sentinel. -/
theorem LP_scan_spec (brent : ℚ → ℤ → ℚ → ℚ → Option ℚ) (z : ℤ → ℤ → ℚ)
    (V : ℚ) (ell : ℤ) :
    ∀ (n : ℕ) (em0 : ℤ), 1 ≤ em0 →
      ∃ l, LP_scan brent z V ell em0 n = Except.ok l ∧ l.length ≤ n ∧
        (∀ k (hk : k < l.length),
          _LP_mode_value brent z V ell (em0 + k) = some (l.get ⟨k, hk⟩)) ∧
        (l.length < n → _LP_mode_value brent z V ell (em0 + l.length) = none) := by
  intro n
  induction n with
  | zero =>
    intro em0 _
    exact ⟨[], rfl, le_refl 0, fun k hk => absurd hk (by simp),
      fun h => absurd h (by simp)⟩
  | succ n ih =>
    intro em0 hem
    have hpub : LP_mode_value brent z V ell em0 =
        Except.ok (_LP_mode_value brent z V ell em0) := by
      unfold LP_mode_value
      rw [if_neg (by omega : ¬ em0 < 1)]
    cases hv : _LP_mode_value brent z V ell em0 with
    | none =>
      refine ⟨[], ?_, by simp, fun k hk => absurd hk (by simp), fun _ => ?_⟩
      · unfold LP_scan
        rw [hpub, hv]
      · simpa using hv
    | some b =>
      obtain ⟨l, hl, hlen, hidx, hstop⟩ := ih (em0 + 1) (by omega)
      refine ⟨b :: l, ?_, Nat.succ_le_succ hlen, ?_, ?_⟩
      · unfold LP_scan
        rw [hpub, hv, hl]
      · intro k hk
        cases k with
        | zero => simpa using hv
        | succ k =>
          have hk' : k < l.length := Nat.lt_of_succ_lt_succ hk
          have h := hidx k hk'
          have harg : em0 + ((k:ℕ) + 1 : ℕ) = em0 + 1 + (k:ℤ) := by
            push_cast
            ring
          rw [harg]
          exact h
      · intro hlt
        have h := hstop (Nat.lt_of_succ_lt_succ hlt)
        have harg : em0 + ((b :: l).length : ℤ) = em0 + 1 + (l.length : ℤ) := by
          simp only [List.length_cons]
          push_cast
          ring
        rw [harg]
        exact h

/-- C9: `LP_mode_values(V, ell)` scans radial orders `em = 1, 2, 3, ...` in
order, stops at the first "no mode" result, and returns the ordered values
found before it: at most 9 entries, entry `k` being the mode value of
`LP_(ell, k+1)`, and when fewer than 9 entries are returned the next radial
order has no mode. -/
theorem LP_mode_values_spec (brent : ℚ → ℤ → ℚ → ℚ → Option ℚ)
    (z : ℤ → ℤ → ℚ) (V : ℚ) (ell : ℤ) :
    ∃ l, LP_mode_values brent z V ell = Except.ok l ∧ l.length ≤ 9 ∧
      (∀ k (hk : k < l.length),
        LP_mode_value brent z V ell ((k : ℤ) + 1) = Except.ok (some (l.get ⟨k, hk⟩))) ∧
      (l.length < 9 →
        LP_mode_value brent z V ell ((l.length : ℤ) + 1) = Except.ok none) := by
  obtain ⟨l, hl, hlen, hidx, hstop⟩ := LP_scan_spec brent z V ell 9 1 (by norm_num)
  refine ⟨l, hl, hlen, ?_, ?_⟩
  · intro k hk
    have h := hidx k hk
    unfold LP_mode_value
    rw [if_neg (by omega : ¬ (k:ℤ) + 1 < 1),
      show (k:ℤ) + 1 = 1 + (k:ℤ) from by ring, h]
  · intro hlt
    have h := hstop hlt
    unfold LP_mode_value
    rw [if_neg (by omega : ¬ ((l.length:ℤ) + 1) < 1),
      show (l.length:ℤ) + 1 = 1 + (l.length:ℤ) from by ring, h]

/-- A float-array fill raises as soon as one scalar result is the
sentinel. -/
theorem fillFloats_error_of_none {α : Type} (f : α → Except String (Option ℚ)) :
    ∀ xs : List α, (∃ a ∈ xs, f a = Except.ok none) →
      ∃ msg, fillFloats f xs = Except.error msg := by
  intro xs
  induction xs with
  | nil =>
    rintro ⟨a, ha, _⟩
    exact absurd ha (by simp)
  | cons a rest ih =>
    rintro ⟨x, hx, hfx⟩
    cases hfa : f a with
    | error e =>
      refine ⟨e, ?_⟩
      unfold fillFloats
      rw [hfa]
    | ok o =>
      cases o with
      | none =>
        refine ⟨"TypeError: float conversion of None", ?_⟩
        unfold fillFloats
        rw [hfa]
      | some b =>
        have hxrest : x ∈ rest := by
          rcases List.mem_cons.mp hx with h | h
          · subst h
            rw [hfa] at hfx
            exact absurd hfx (by simp)
          · exact h
        obtain ⟨msg, hmsg⟩ := ih ⟨x, hxrest, hfx⟩
        refine ⟨msg, ?_⟩
        unfold fillFloats
        rw [hfa, hmsg]

/-- A float array is produced only when every scalar call returned a
value. -/
theorem fillFloats_ok_all_some {α : Type} (f : α → Except String (Option ℚ)) :
    ∀ (xs : List α) (l : List ℚ), fillFloats f xs = Except.ok l →
      ∀ a ∈ xs, ∃ b, f a = Except.ok (some b) := by
  intro xs
  induction xs with
  | nil =>
    intro l _ a ha
    exact absurd ha (by simp)
  | cons a rest ih =>
    intro l hl x hx
    unfold fillFloats at hl
    cases hfa : f a with
    | error e =>
      rw [hfa] at hl
      exact absurd hl (by simp)
    | ok o =>
      cases o with
      | none =>
        rw [hfa] at hl
        exact absurd hl (by simp)
      | some b =>
        rw [hfa] at hl
        cases hrest : fillFloats f rest with
        | error e =>
          rw [hrest] at hl
          exact absurd hl (by simp)
        | ok l' =>
          rw [hrest] at hl
          rcases List.mem_cons.mp hx with h | h
          · subst h
            exact ⟨b, hfa⟩
          · exact ih l' hrest x h

/-- C10: when `V` (or `ell`) is an array argument and some element has no
guided mode, the public `LP_mode_value` raises (the `None` sentinel cannot
be stored in the float result array); a float array is returned only when
every element has a guided mode. -/
theorem LP_mode_value_array_exception (brent : ℚ → ℤ → ℚ → ℚ → Option ℚ)
    (z : ℤ → ℤ → ℚ) (Vs : List ℚ) (ells : List ℤ) (V : ℚ) (ell em : ℤ)
    (hem : 1 ≤ em) :
    ((∃ Vx ∈ Vs, _LP_mode_value brent z Vx ell em = none) →
        ∃ msg, LP_mode_value_arrayV brent z Vs ell em = Except.error msg) ∧
    (∀ l, LP_mode_value_arrayV brent z Vs ell em = Except.ok l →
        ∀ Vx ∈ Vs, ∃ b, _LP_mode_value brent z Vx ell em = some b) ∧
    ((∃ lx ∈ ells, _LP_mode_value brent z V lx em = none) →
        ∃ msg, LP_mode_value_arrayEll brent z V ells em = Except.error msg) ∧
    (∀ l, LP_mode_value_arrayEll brent z V ells em = Except.ok l →
        ∀ lx ∈ ells, ∃ b, _LP_mode_value brent z V lx em = some b) := by
  have hnotlt : ¬ em < 1 := by omega
  refine ⟨?_, ?_, ?_, ?_⟩
  · rintro ⟨Vx, hVx, hnone⟩
    unfold LP_mode_value_arrayV
    rw [if_neg hnotlt]
    refine fillFloats_error_of_none _ Vs ⟨Vx, hVx, ?_⟩
    unfold LP_mode_value
    rw [if_neg hnotlt, hnone]
  · intro l hl Vx hVx
    unfold LP_mode_value_arrayV at hl
    rw [if_neg hnotlt] at hl
    obtain ⟨b, hb⟩ := fillFloats_ok_all_some _ Vs l hl Vx hVx
    refine ⟨b, ?_⟩
    unfold LP_mode_value at hb
    rw [if_neg hnotlt] at hb
    simpa using hb
  · rintro ⟨lx, hlx, hnone⟩
    unfold LP_mode_value_arrayEll
    rw [if_neg hnotlt]
    refine fillFloats_error_of_none _ ells ⟨lx, hlx, ?_⟩
    unfold LP_mode_value
    rw [if_neg hnotlt, hnone]
  · intro l hl lx hlx
    unfold LP_mode_value_arrayEll at hl
    rw [if_neg hnotlt] at hl
    obtain ⟨b, hb⟩ := fillFloats_ok_all_some _ ells l hl lx hlx
    refine ⟨b, ?_⟩
    unfold LP_mode_value at hb
    rw [if_neg hnotlt] at hb
    simpa using hb

/-- C10 witness: an array call containing `V = -1` (no guided mode there)
raises instead of returning an array. -/
theorem LP_mode_value_array_exception_witness :
    ∃ msg, LP_mode_value_arrayV noneBrentC zConc [-1] 0 1 = Except.error msg :=
  (LP_mode_value_array_exception noneBrentC zConc [-1] [] 1 0 1 (by norm_num)).1
    ⟨-1, by simp, by norm_num [_LP_mode_value]⟩

end Ofiber
